import Mathlib

/-!
Verification of the `sir` trigger-generation core and web-service
compatibility conversion layer.

The first half embeds `sir/wscompat/convert.py` (partial-date formatting and
artist conversion).  The second half embeds the trigger-generation engine
(`unique_split_paths`, `walk_path`, the four trigger-generator variants and
the writer functions); that module's source file is not present in this
repository checkout, only its unit tests, so the definitions are modelled
from the specification and pinned by the expected values of the unit tests.
-/

namespace Sir

/-! ### Part 1: `sir/wscompat/convert.py` -/

/-- Embedding of `mbdata.types.PartialDate`: a date whose year, month and day fields may
each be absent (`None`).  The database columns are SMALLINTs, embedded as
`Option Int`. -/
structure PartialDate where
  year : Option Int
  month : Option Int
  day : Option Int

/-- Left-pad a numeral string with zeros to width `w`, as Python's
`"%0Nd"` does for non-negative arguments. -/
def pad0 (w : Nat) (s : String) : String :=
  if w ≤ s.length then s else String.mk (List.replicate (w - s.length) '0') ++ s

/-- Python's `"%0Nd" % n` for an integer `n`: zero-padded to total width `w`,
with the minus sign counting towards the width for negative `n`. -/
def fmt0d (w : Nat) (n : Int) : String :=
  if n < 0 then "-" ++ pad0 (w - 1) (Nat.repr n.natAbs) else pad0 w (Nat.repr n.toNat)

/-- Embedding of `partialdate_to_string` from `sir/wscompat/convert.py` (lines 9-28).
The source incrementally builds a `%`-format string `"%04d"`/`"%04d-%02d"`/
`"%04d-%02d-%02d"` and an argument tuple under the nested conditions
`x is not None and x != 0`; this is that computation with the formatting
applied directly. -/
def partialdate_to_string (obj : PartialDate) : String :=
  match obj.year with
  | none => ""
  | some y =>
    if y = 0 then "" else
      fmt0d 4 y ++
        match obj.month with
        | none => ""
        | some m =>
          if m = 0 then "" else
            "-" ++ fmt0d 2 m ++
              match obj.day with
              | none => ""
              | some d => if d = 0 then "" else "-" ++ fmt0d 2 d

/-! #### Input-side ORM row models (`sir.schema.modelext` / `mbdata.models`).
Only the attributes read by `convert.py` are embedded; Python `None` becomes
`Option.none`. -/

/-- An object carrying a `.name` attribute (gender, type, tag rows). -/
structure Named where
  name : String

/-- Entry of `iso_3166_1_codes`: carries a `.code` attribute. -/
structure IsoCode where
  code : String

/-- Embedding of `mbdata.models.Area` as read by `convert_area_inner` / `convert_artist`. -/
structure PyArea where
  gid : String
  name : String
  iso_3166_1_codes : List IsoCode

/-- An alias row as read by `convert_alias`. -/
structure PyAlias where
  locale : Option String
  sort_name : Option String
  name : String
  type : Option Named
  primary_for_locale : Bool
  begin_date : Option PartialDate
  end_date : Option PartialDate

/-- Embedding of `mbdata.models.ArtistIPI` as read by `convert_ipi_list`. -/
structure PyIPI where
  ipi : String

/-- Embedding of `mbdata.models.ArtistTag` as read by `convert_tag`. -/
structure PyTag where
  count : Int
  tag : Named

/-- Embedding of `sir.schema.modelext.CustomArtist` as read by `convert_artist`. -/
structure PyArtist where
  comment : Option String
  gid : String
  name : String
  sort_name : Option String
  gender : Option Named
  type : Option Named
  begin_area : Option PyArea
  area : Option PyArea
  end_area : Option PyArea
  begin_date : Option PartialDate
  end_date : Option PartialDate
  ended : Bool
  aliases : List PyAlias
  ipis : List PyIPI
  tags : List PyTag

/-! #### Output-side models (`mbrng.models` generated XML bindings).
Each constructor (`models.artist()`, `models.alias()`, ...) produces an
object whose optional members are unset (`None`); `set_x` assigns member
`x`. -/

/-- Embedding of `mbrng.models.def_area_element_inner`. -/
structure XmlArea where
  id : Option String := none
  name : Option String := none
  sort_name : Option String := none

/-- Embedding of `mbrng.models.alias`. -/
structure XmlAlias where
  locale : Option String := none
  sort_name : Option String := none
  valueOf_ : Option String := none
  type : Option String := none
  primary : Option String := none
  begin_date : Option String := none
  end_date : Option String := none

/-- Embedding of `mbrng.models.alias_list`. -/
structure XmlAliasList where
  aliases : List XmlAlias := []

/-- Embedding of `mbrng.models.life_span`. -/
structure XmlLifeSpan where
  begin_val : Option String := none
  end_val : Option String := none
  ended : Option String := none

/-- Embedding of `mbrng.models.tag`. -/
structure XmlTag where
  count : Option Int := none
  name : Option String := none

/-- Embedding of `mbrng.models.ipi_list`. -/
structure XmlIpiList where
  ipis : List String := []

/-- Embedding of `mbrng.models.tag_list`. -/
structure XmlTagList where
  tags : List XmlTag := []

/-- Embedding of `mbrng.models.artist`, restricted to the members touched by
`convert_artist` / `convert_artist_simple`. -/
structure XmlArtist where
  id : Option String := none
  name : Option String := none
  sort_name : Option String := none
  disambiguation : Option String := none
  gender : Option String := none
  type : Option String := none
  country : Option String := none
  begin_area : Option XmlArea := none
  area : Option XmlArea := none
  end_area : Option XmlArea := none
  life_span : Option XmlLifeSpan := none
  alias_list : Option XmlAliasList := none
  ipi_list : Option XmlIpiList := none
  tag_list : Option XmlTagList := none

def XmlArtist.set_id (a : XmlArtist) (v : String) : XmlArtist := { a with id := some v }

def XmlArtist.set_name (a : XmlArtist) (v : String) : XmlArtist := { a with name := some v }

def XmlArtist.set_sort_name (a : XmlArtist) (v : Option String) : XmlArtist := { a with sort_name := v }

def XmlArtist.set_disambiguation (a : XmlArtist) (v : String) : XmlArtist := { a with disambiguation := some v }

def XmlArtist.set_gender (a : XmlArtist) (v : String) : XmlArtist := { a with gender := some v }

def XmlArtist.set_type (a : XmlArtist) (v : String) : XmlArtist := { a with type := some v }

def XmlArtist.set_country (a : XmlArtist) (v : String) : XmlArtist := { a with country := some v }

def XmlArtist.set_begin_area (a : XmlArtist) (v : XmlArea) : XmlArtist := { a with begin_area := some v }

def XmlArtist.set_area (a : XmlArtist) (v : XmlArea) : XmlArtist := { a with area := some v }

def XmlArtist.set_end_area (a : XmlArtist) (v : XmlArea) : XmlArtist := { a with end_area := some v }

def XmlArtist.set_life_span (a : XmlArtist) (v : XmlLifeSpan) : XmlArtist := { a with life_span := some v }

def XmlArtist.set_alias_list (a : XmlArtist) (v : XmlAliasList) : XmlArtist := { a with alias_list := some v }

def XmlArtist.set_ipi_list (a : XmlArtist) (v : XmlIpiList) : XmlArtist := { a with ipi_list := some v }

def XmlArtist.set_tag_list (a : XmlArtist) (v : XmlTagList) : XmlArtist := { a with tag_list := some v }

/-- Embedding of `convert_area_inner` (convert.py lines 30-39): name is used for both
`name` and `sort_name`; aliases are a TODO in the source. -/
def convert_area_inner (obj : PyArea) : XmlArea :=
  { id := some obj.gid, name := some obj.name, sort_name := some obj.name }

/-- Embedding of `convert_alias` (convert.py lines 62-81). -/
def convert_alias (obj : PyAlias) (has_sort_name : Bool := true) : XmlAlias :=
  let al : XmlAlias := {}
  let al := { al with locale := obj.locale }
  let al :=
    if has_sort_name then { al with sort_name := obj.sort_name }
    else { al with sort_name := some obj.name }
  let al := { al with valueOf_ := some obj.name }
  let al :=
    match obj.type with
    | some t => { al with type := some t.name }
    | none => al
  let al := if obj.primary_for_locale then { al with primary := some "primary" } else al
  let al :=
    match obj.begin_date with
    | some d => { al with begin_date := some (partialdate_to_string d) }
    | none => al
  let al :=
    match obj.end_date with
    | some d => { al with end_date := some (partialdate_to_string d) }
    | none => al
  al

/-- Embedding of `convert_alias_list` (convert.py lines 85-91); Python 2 `map` is eager,
so every alias is added in order. -/
def convert_alias_list (obj : List PyAlias) (has_sort_name : Bool := true) : XmlAliasList :=
  { aliases := obj.map (fun a => convert_alias a has_sort_name) }

/-- Embedding of `convert_tag` (convert.py lines 94-101). -/
def convert_tag (obj : PyTag) : XmlTag :=
  { count := some obj.count, name := some obj.tag.name }

/-- Embedding of `convert_ipi_list` (convert.py lines 162-168). -/
def convert_ipi_list (obj : List PyIPI) : XmlIpiList :=
  { ipis := obj.map (fun i => i.ipi) }

/-- Embedding of `convert_tag_list` (convert.py lines 171-177). -/
def convert_tag_list (obj : List PyTag) : XmlTagList :=
  { tags := obj.map convert_tag }

/-- Embedding of `convert_artist` (convert.py lines 180-234).  Note the gender branch at
lines 193-194 inspects `artist.gender` — the member of the output object
constructed a few lines above, never assigned at this point — instead of
`obj.gender`; since that member is still unset the branch body (whose
attribute access `artist.gender.name` could not even run on a string value)
is dead code and the converted artist keeps no gender. -/
def convert_artist (obj : PyArtist) : XmlArtist :=
  let artist : XmlArtist := {}
  let artist :=
    match obj.comment with
    | some c => artist.set_disambiguation c
    | none => artist
  let artist := artist.set_id obj.gid
  let artist := artist.set_name obj.name
  let artist := artist.set_sort_name obj.sort_name
  let artist :=
    match artist.gender with
    | some g => artist.set_gender g
    | none => artist
  let artist :=
    match obj.type with
    | some t => artist.set_type t.name
    | none => artist
  let artist :=
    match obj.begin_area with
    | some a => artist.set_begin_area (convert_area_inner a)
    | none => artist
  let artist :=
    match obj.area with
    | some a =>
      let artist := artist.set_area (convert_area_inner a)
      match a.iso_3166_1_codes with
      | c :: _ => artist.set_country c.code
      | [] => artist
    | none => artist
  let artist :=
    match obj.end_area with
    | some a => artist.set_end_area (convert_area_inner a)
    | none => artist
  let lifespan : XmlLifeSpan := {}
  let lifespan :=
    match obj.begin_date with
    | some d => { lifespan with begin_val := some (partialdate_to_string d) }
    | none => lifespan
  let lifespan :=
    match obj.end_date with
    | some d => { lifespan with end_val := some (partialdate_to_string d) }
    | none => lifespan
  let lifespan :=
    if obj.ended then { lifespan with ended := some "true" }
    else { lifespan with ended := some "false" }
  let artist := artist.set_life_span lifespan
  let artist :=
    match obj.aliases with
    | [] => artist
    | _ => artist.set_alias_list (convert_alias_list obj.aliases)
  let artist :=
    match obj.ipis with
    | [] => artist
    | _ => artist.set_ipi_list (convert_ipi_list obj.ipis)
  let artist :=
    match obj.tags with
    | [] => artist
    | _ => artist.set_tag_list (convert_tag_list obj.tags)
  artist

/-! ### Part 2: `sir/trigger_generation.py`

Modelled from the spec: the module `sir.trigger_generation` itself is not in
this checkout; only its unit tests (`test/test_trigger_generation.py`) are.
The definitions below follow spec sections 3, 4.1-4.4 and 6, with the
concrete rendered strings pinned by the unit tests' expected values. -/

/-! #### Path splitting and joining.  Python's `path.split(".")` and
`".".join(...)`, embedded on the character lists underlying `String`. -/

/-- Split a character list at every `'.'`; pieces never contain `'.'` and
the result is never empty (`"".split(".") == [""]`). -/
def splitDots : List Char → List (List Char)
  | [] => [[]]
  | c :: cs =>
    match splitDots cs with
    | [] => []
    | p :: ps => if c = '.' then [] :: p :: ps else (c :: p) :: ps

/-- Interleave `'.'` between the pieces (Python `".".join`). -/
def joinDots : List (List Char) → List Char
  | [] => []
  | [p] => p
  | p :: ps => p ++ '.' :: joinDots ps

/-- Python `path.split(".")` on strings. -/
def splitPath (s : String) : List String :=
  (splitDots s.data).map String.mk

/-- Python `".".join(segs)` on strings. -/
def joinPath (l : List String) : String :=
  String.mk (joinDots (l.map String.data))

/-- All dotted prefixes of a path, shortest first:
`prefixesOf "a.b.c" = ["a", "a.b", "a.b.c"]`.  This is the inner loop of
`unique_split_paths`: `".".join(split_path[:i])` for `i = 1 .. len`. -/
def prefixesOf (p : String) : List String :=
  (List.range (splitPath p).length).map (fun i => joinPath ((splitPath p).take (i + 1)))

/-- The flattened stream of prefixes of all input paths, in input order
(the sequence of candidate outputs inspected by `unique_split_paths`). -/
def allPrefixStream : List String → List String
  | [] => []
  | p :: ps => prefixesOf p ++ allPrefixStream ps

/-- First-occurrence deduplication against a `seen` accumulator: emit each
candidate not yet seen and record it, mirroring the generator's
`if join_path not in seen_paths: seen_paths.add(...); yield join_path`. -/
def usp_aux : List String → List String → List String
  | [], _ => []
  | q :: rest, seen => if q ∈ seen then usp_aux rest seen else q :: usp_aux rest (q :: seen)

/-- Modelled from the spec: `uniqueSplitPaths(paths)` — for each input path
yield every dotted prefix in increasing length, skipping prefixes already
yielded for an earlier path (spec 4.2). -/
def unique_split_paths (paths : List String) : List String :=
  usp_aux (allPrefixStream paths) []

/-- The first dotted segment of a path (its "root"). -/
def rootOf (p : String) : String :=
  joinPath ((splitPath p).take 1)

/-! #### Schema graph and path resolution (spec 3, 4.1). -/

/-- A named relation of a table: either many-to-one (this table holds the
foreign-key column `fkcol` referencing `target`) or one-to-many (the
`target` table holds the foreign-key column `remotecol` back to this
table). -/
inductive Rel where
  | many_to_one (target : String) (fkcol : String)
  | one_to_many (target : String) (remotecol : String)
deriving DecidableEq

/-- The table a relation points at. -/
def Rel.target : Rel → String
  | .many_to_one t _ => t
  | .one_to_many t _ => t

/-- A table of the schema graph: name, primary-key column, literal columns,
and named relations. -/
structure Table where
  name : String
  pk : String
  columns : List String
  rels : List (String × Rel)
deriving DecidableEq

/-- The schema graph: a collection of tables (spec 3). -/
structure SchemaGraph where
  tables : List Table
deriving DecidableEq

/-- Look a table up by name. -/
def SchemaGraph.find? (g : SchemaGraph) (n : String) : Option Table :=
  g.tables.find? (fun t => t.name == n)

/-- Look a relation up by name on a table. -/
def lookupRel (t : Table) (n : String) : Option Rel :=
  (t.rels.find? (fun p => p.1 == n)).map (fun p => p.2)

/-- Modelled from the spec: the `PathPart` tagged union (spec 3) —
`ColumnPathPart` (terminal column reference), `ManyToOnePathPart` and
`OneToManyPathPart` (each owning an inner part). -/
inductive PathPart where
  | column (colname : String)
  | many_to_one (tablename : String) (pkname : String) (fkname : String) (inner : PathPart)
  | one_to_many (tablename : String) (pkname : String) (inner : PathPart)
deriving DecidableEq

/-- Modelled from the spec: `render()` (spec 4.1) — each composite part
renders one `SELECT` embedding its inner part inside its `IN (...)` clause,
and a column part renders the changed-row placeholder's column.  The exact
strings are pinned by `WalkPathTest`. -/
def PathPart.render : PathPart → String
  | .column c => "\x7bnew_or_old\x7d." ++ c
  | .many_to_one t pk fk inner =>
    "SELECT " ++ t ++ "." ++ pk ++ " FROM " ++ t ++ " WHERE " ++ t ++ "." ++ fk
      ++ " IN (" ++ inner.render ++ ")"
  | .one_to_many t pk inner =>
    "SELECT " ++ t ++ "." ++ pk ++ " FROM " ++ t ++ " WHERE " ++ t ++ "." ++ pk
      ++ " IN (" ++ inner.render ++ ")"

/-- Modelled from the spec: the segment walk of `walk_path` (spec 4.1).
Result: `none` for a configuration error (unknown segment or unknown target
table, spec 7), `some (none, none)` when a segment names a literal column
(the path selects a column directly, no relational part), and
`some (some part, some terminal)` for a resolved relation chain.  A
terminal many-to-one hop bottoms out in a column part for the target
table's primary key; a terminal one-to-many hop bottoms out in a column
part for the remote foreign-key column. -/
def walk_aux (g : SchemaGraph) (t : Table) : List String → Option (Option PathPart × Option String)
  | [] => none
  | seg :: rest =>
    match lookupRel t seg with
    | none => if seg ∈ t.columns then some (none, none) else none
    | some (.many_to_one target fkcol) =>
      match g.find? target with
      | none => none
      | some tgt =>
        match rest with
        | [] => some (some (.many_to_one t.name t.pk fkcol (.column tgt.pk)), some target)
        | _ :: _ =>
          match walk_aux g tgt rest with
          | some (some inner, some term) =>
            some (some (.many_to_one t.name t.pk fkcol inner), some term)
          | some _ => some (none, none)
          | none => none
    | some (.one_to_many target remotecol) =>
      match g.find? target with
      | none => none
      | some tgt =>
        match rest with
        | [] => some (some (.one_to_many t.name t.pk (.column remotecol)), some target)
        | _ :: _ =>
          match walk_aux g tgt rest with
          | some (some inner, some term) =>
            some (some (.one_to_many t.name t.pk inner), some term)
          | some _ => some (none, none)
          | none => none

/-- Modelled from the spec: `walk_path(model, path)` — split the dotted path
and walk it through the schema graph from the model's table (spec 4.1). -/
def walk_path (g : SchemaGraph) (model : Table) (path : String) :
    Option (Option PathPart × Option String) :=
  walk_aux g model (splitPath path)

/-- A path that resolves through relations and ends at a literal column of
the table it reaches (the `(none, none)` case of spec 4.1). -/
inductive EndsAtColumn (g : SchemaGraph) : Table → List String → Prop where
  | last (t : Table) (seg : String) :
      lookupRel t seg = none → seg ∈ t.columns → EndsAtColumn g t [seg]
  | hop (t tgt : Table) (seg : String) (r : Rel) (rest : List String) :
      lookupRel t seg = some r → g.find? r.target = some tgt → rest ≠ [] →
      EndsAtColumn g tgt rest → EndsAtColumn g t (seg :: rest)

/-! #### The test schema (`test/models.py` as pinned by `WalkPathTest`):
`table_b` has a many-to-one relation `c` (local column `c`) to `table_c`;
`table_c` has the corresponding one-to-many relation `bs` back to
`table_b`. -/

/-- Test model `models.B`: table `table_b` with primary key `id`, foreign-key column
`c`, and many-to-one relation `c` to `table_c`. -/
def tableB : Table :=
  { name := "table_b", pk := "id", columns := ["id", "c"],
    rels := [("c", .many_to_one "table_c" "c")] }

/-- Test model `models.C`: table `table_c` with primary key `id` and one-to-many
relation `bs` to `table_b` over remote column `c`. -/
def tableC : Table :=
  { name := "table_c", pk := "id", columns := ["id"],
    rels := [("bs", .one_to_many "table_b" "c")] }

/-- The schema graph of the test models. -/
def testGraph : SchemaGraph := ⟨[tableB, tableC]⟩

/-! #### Trigger generators (spec 4.3). -/

/-- The class-level attributes of a trigger-generator variant: operation
tag, row-reference token, timing, and AMQP routing key (unset on the
abstract base class). -/
structure GenClass where
  op : String
  id_replacement : String
  beforeafter : String
  routing_key : Option String
deriving DecidableEq

/-- Python's `str(x)` on an optional string (`None` renders as `"None"`,
as in `TriggerGeneratorTest.test_function`). -/
def pyStr : Option String → String
  | none => "None"
  | some s => s

/-- A constructed trigger-generator instance: the variant's fixed attributes
plus entity-type prefix, owning table, dotted path label, resolved selection,
target index table and disambiguating index (spec 3). -/
structure TriggerGenerator where
  op : String
  id_replacement : String
  beforeafter : String
  routing_key : Option String
  pfx : String
  tablename : String
  path : String
  selection : String
  indextable : String
  index : Nat
deriving DecidableEq

/-- Replace every occurrence of `pat` in a character list by `sub`,
scanning left to right; the fuel argument (instantiated with the list
length) only makes the recursion structural. -/
def substChars (pat sub : List Char) : Nat → List Char → List Char
  | _, [] => []
  | 0, l => l
  | Nat.succ fuel, c :: cs =>
    if pat ≠ [] ∧ List.isPrefixOf pat (c :: cs) then
      sub ++ substChars pat sub fuel (List.drop pat.length (c :: cs))
    else c :: substChars pat sub fuel cs

/-- Python `selection.format(new_or_old=token)`: substitute the changed-row token
for the `\x7bnew_or_old\x7d` placeholder (the selections built by this
module contain no other placeholder). -/
def replaceToken (s : String) (token : String) : String :=
  String.mk (substChars "\x7bnew_or_old\x7d".data token.data s.data.length s.data)

/-- Modelled from the spec: instance construction — store the inputs and
substitute the variant's row token into the selection (spec 4.3). -/
def GenClass.construct (c : GenClass) (pfx tablename path selection indextable : String)
    (index : Nat) : TriggerGenerator :=
  { op := c.op, id_replacement := c.id_replacement, beforeafter := c.beforeafter,
    routing_key := c.routing_key, pfx := pfx, tablename := tablename, path := path,
    selection := replaceToken selection c.id_replacement, indextable := indextable,
    index := index }

/-- Modelled from the spec: `triggername` — `search_` + entity-type prefix +
operation + numeric disambiguating index (pinned by
`TriggerGeneratorTest.test_triggername`). -/
def TriggerGenerator.triggername (g : TriggerGenerator) : String :=
  "search_" ++ g.pfx ++ "_" ++ g.op ++ "_" ++ Nat.repr g.index

/-- Modelled from the spec: the rendered trigger-function definition
(spec 6, pinned by `TriggerGeneratorTest.test_function`). -/
def TriggerGenerator.function (g : TriggerGenerator) : String :=
  "\nCREATE OR REPLACE FUNCTION " ++ g.triggername ++ "() RETURNS trigger\n    AS $$\nDECLARE\n    ids TEXT;\nBEGIN\n    SELECT string_agg(tmp.id::text, \x27 \x27) INTO ids FROM ("
    ++ g.selection
    ++ ") AS tmp;\n    PERFORM amqp.publish(1, \x27search\x27, \x27"
    ++ pyStr g.routing_key
    ++ "\x27, \x27"
    ++ g.indextable
    ++ " \x27 || ids);\n    RETURN NULL;\nEND;\n$$ LANGUAGE plpgsql;\nCOMMENT ON FUNCTION "
    ++ g.triggername
    ++ "() IS \x27The path for this function is "
    ++ g.path
    ++ "\x27;\n"

/-- Modelled from the spec: the rendered `CREATE TRIGGER` statement
(spec 6, pinned by `TriggerGeneratorTest.test_trigger`). -/
def TriggerGenerator.trigger (g : TriggerGenerator) : String :=
  "\nCREATE TRIGGER " ++ g.triggername ++ " " ++ g.beforeafter ++ " " ++ g.op ++ " ON "
    ++ g.tablename
    ++ "\n    FOR EACH ROW EXECUTE PROCEDURE "
    ++ g.triggername
    ++ "();\nCOMMENT ON TRIGGER "
    ++ g.triggername
    ++ " IS \x27The path for this trigger is "
    ++ g.path
    ++ "\x27;\n"

/-- Class attributes of `DeleteTriggerGenerator`: fires before deletion, refers to the old row,
routes as an update of an existing document. -/
def DeleteTriggerGenerator : GenClass :=
  { op := "delete", id_replacement := "OLD", beforeafter := "BEFORE",
    routing_key := some "update" }

/-- Class attributes of `InsertTriggerGenerator`: fires after insertion, refers to the new row,
routes as a fresh index request. -/
def InsertTriggerGenerator : GenClass :=
  { op := "insert", id_replacement := "NEW", beforeafter := "AFTER",
    routing_key := some "index" }

/-- Class attributes of `UpdateTriggerGenerator`: fires after the update, refers to the new row,
routes as an update of an existing document. -/
def UpdateTriggerGenerator : GenClass :=
  { op := "update", id_replacement := "NEW", beforeafter := "AFTER",
    routing_key := some "update" }

/-- Modelled from the spec: `GIDDeleteTriggerGenerator` — the delete variant
for an entity's own root table, which ignores the supplied joined selection
and selects by the deleted row's own global-id column (spec 4.3: "a
different row-identifier selection strategy (global-id column instead of a
joined subquery)"). -/
def GIDDeleteTriggerGenerator (pfx tablename path : String) (_selection : String)
    (indextable : String) (index : Nat) : TriggerGenerator :=
  DeleteTriggerGenerator.construct pfx tablename path "SELECT \x7bnew_or_old\x7d.gid"
    indextable index

/-! #### Writer / orchestrator (spec 4.4).  The two output sinks are
embedded as the lists of strings written to them, triggers first. -/

/-- Modelled from the spec: `write_triggers_to_file` — for each requested
generator variant, construct the instance and write its trigger definition
to the trigger sink and its function definition to the function sink,
exactly once each (spec 4.4). -/
def write_triggers_to_file
    (generators : List (String → String → String → String → String → Nat → TriggerGenerator))
    (pfx tablename path selection indextable : String) (index : Nat) :
    List String × List String :=
  (generators.map (fun mk => (mk pfx tablename path selection indextable index).trigger),
   generators.map (fun mk => (mk pfx tablename path selection indextable index).function))

/-- The direct selection for an entity's own root table: the row's own id
(pinned by `DirectTriggerWriterTest`). -/
def direct_select (t : String) : String :=
  "SELECT " ++ t ++ ".id FROM " ++ t ++ " WHERE " ++ t ++ ".id = \x7bnew_or_old\x7d.id"

/-- Modelled from the spec: `write_direct_triggers` — for an entity's own
root table, emit the gid-delete, insert and update variants with path label
`direct` and index 0 (spec 4.4, pinned by `DirectTriggerWriterTest`). -/
def write_direct_triggers (pfx : String) (model : Table) : List String × List String :=
  write_triggers_to_file
    [GIDDeleteTriggerGenerator, InsertTriggerGenerator.construct, UpdateTriggerGenerator.construct]
    pfx model.name "direct" (direct_select model.name) model.name 0

/-! ### Helper lemmas: splitting and joining dotted paths -/

theorem splitDots_ne_nil (l : List Char) : splitDots l ≠ [] := by
  induction l with
  | nil => simp [splitDots]
  | cons c cs ih =>
    cases h : splitDots cs with
    | nil => exact absurd h ih
    | cons p ps => by_cases hc : c = '.' <;> simp [splitDots, h, hc]

theorem not_mem_splitDots (l : List Char) : ∀ p ∈ splitDots l, '.' ∉ p := by
  induction l with
  | nil => intro p hp; simp [splitDots] at hp; simp [hp]
  | cons c cs ih =>
    intro p hp
    cases h : splitDots cs with
    | nil => exact absurd h (splitDots_ne_nil cs)
    | cons q qs =>
      rw [h] at ih
      by_cases hc : c = '.'
      · simp only [splitDots, h, if_pos hc] at hp
        rcases List.mem_cons.mp hp with rfl | hp
        · simp
        · exact ih p hp
      · simp only [splitDots, h, if_neg hc] at hp
        rcases List.mem_cons.mp hp with rfl | hp
        · intro hd
          rcases List.mem_cons.mp hd with e | hd
          · exact hc e.symm
          · exact ih q (List.mem_cons_self q qs) hd
        · exact ih p (List.mem_cons_of_mem q hp)

theorem joinDots_cons (x : List Char) (ys : List (List Char)) (h : ys ≠ []) :
    joinDots (x :: ys) = x ++ '.' :: joinDots ys := by
  cases ys with
  | nil => exact absurd rfl h
  | cons y ys' => rfl

theorem joinDots_splitDots (l : List Char) : joinDots (splitDots l) = l := by
  induction l with
  | nil => rfl
  | cons c cs ih =>
    cases h : splitDots cs with
    | nil => exact absurd h (splitDots_ne_nil cs)
    | cons p ps =>
      rw [h] at ih
      by_cases hc : c = '.'
      · simp only [splitDots, h, if_pos hc]
        rw [joinDots_cons _ _ (by simp), ih, hc]
        rfl
      · simp only [splitDots, h, if_neg hc]
        cases ps with
        | nil =>
          simp only [joinDots] at ih ⊢
          rw [ih]
        | cons q qs =>
          rw [joinDots_cons _ _ (by simp)] at ih ⊢
          rw [List.cons_append, ih]

theorem splitDots_no_dot (l : List Char) (h : '.' ∉ l) : splitDots l = [l] := by
  induction l with
  | nil => rfl
  | cons c cs ih =>
    have hc : c ≠ '.' := fun e => h (e ▸ List.mem_cons_self c cs)
    have hcs : '.' ∉ cs := fun m => h (List.mem_cons_of_mem _ m)
    simp only [splitDots, ih hcs, if_neg hc]

theorem splitDots_append_dot (p l : List Char) (h : '.' ∉ p) :
    splitDots (p ++ '.' :: l) = p :: splitDots l := by
  induction p with
  | nil =>
    cases hl : splitDots l with
    | nil => exact absurd hl (splitDots_ne_nil l)
    | cons q qs => simp [splitDots, hl]
  | cons c p' ih =>
    have hc : c ≠ '.' := fun e => h (e ▸ List.mem_cons_self c p')
    have hp' : '.' ∉ p' := fun m => h (List.mem_cons_of_mem _ m)
    rw [List.cons_append]
    simp only [splitDots, ih hp', if_neg hc]

theorem splitDots_joinDots (ps : List (List Char)) (h1 : ps ≠ [])
    (h2 : ∀ p ∈ ps, '.' ∉ p) : splitDots (joinDots ps) = ps := by
  induction ps with
  | nil => exact absurd rfl h1
  | cons p ps' ih =>
    cases ps' with
    | nil => exact splitDots_no_dot p (h2 p (List.mem_cons_self p []))
    | cons q qs =>
      rw [joinDots_cons _ _ (by simp),
        splitDots_append_dot _ _ (h2 p (List.mem_cons_self p _)),
        ih (by simp) (fun x hx => h2 x (List.mem_cons_of_mem _ hx))]

theorem splitPath_ne_nil (s : String) : splitPath s ≠ [] := by
  intro h
  exact splitDots_ne_nil s.data (by simpa [splitPath] using h)

theorem length_splitPath_pos (s : String) : 0 < (splitPath s).length :=
  List.length_pos.mpr (splitPath_ne_nil s)

theorem splitPath_dot_free {s q : String} (h : q ∈ splitPath s) : '.' ∉ q.data := by
  rcases List.mem_map.mp h with ⟨pc, hpc, rfl⟩
  exact not_mem_splitDots s.data pc hpc

theorem joinPath_splitPath (s : String) : joinPath (splitPath s) = s := by
  show String.mk (joinDots (((splitDots s.data).map String.mk).map String.data)) = s
  rw [List.map_map, show (String.data ∘ String.mk) = id from rfl, List.map_id,
    joinDots_splitDots]

theorem splitPath_joinPath (l : List String) (h1 : l ≠ [])
    (h2 : ∀ s ∈ l, '.' ∉ s.data) : splitPath (joinPath l) = l := by
  show (splitDots (String.mk (joinDots (l.map String.data))).data).map String.mk = l
  rw [show (String.mk (joinDots (l.map String.data))).data = joinDots (l.map String.data)
      from rfl,
    splitDots_joinDots _ (by simpa using h1)
      (by
        intro p hp
        rcases List.mem_map.mp hp with ⟨s, hs, rfl⟩
        exact h2 s hs),
    List.map_map, show (String.mk ∘ String.data) = id from rfl, List.map_id]

/-! ### Helper lemmas: prefixes, the prefix stream, and deduplication -/

theorem mem_prefixesOf {q p : String} :
    q ∈ prefixesOf p ↔
      ∃ i, i < (splitPath p).length ∧ q = joinPath ((splitPath p).take (i + 1)) := by
  constructor
  · intro h
    rcases List.mem_map.mp h with ⟨i, hi, rfl⟩
    exact ⟨i, List.mem_range.mp hi, rfl⟩
  · rintro ⟨i, hi, rfl⟩
    exact List.mem_map.mpr ⟨i, List.mem_range.mpr hi, rfl⟩

theorem splitPath_joinPath_take {p : String} {i : Nat} (h : i < (splitPath p).length) :
    splitPath (joinPath ((splitPath p).take (i + 1))) = (splitPath p).take (i + 1) := by
  apply splitPath_joinPath
  · rw [Ne, List.take_eq_nil_iff]
    rintro (h' | h')
    · exact Nat.succ_ne_zero i h'
    · exact splitPath_ne_nil p h'
  · intro s hs
    exact splitPath_dot_free (List.take_subset _ _ hs)

theorem rootOf_mem_prefixesOf (p : String) : rootOf p ∈ prefixesOf p :=
  mem_prefixesOf.mpr ⟨0, length_splitPath_pos p, rfl⟩

theorem splitPath_rootOf (p : String) : splitPath (rootOf p) = (splitPath p).take 1 :=
  splitPath_joinPath_take (length_splitPath_pos p)

theorem length_splitPath_rootOf (p : String) : (splitPath (rootOf p)).length = 1 := by
  rw [splitPath_rootOf, List.length_take]
  have := length_splitPath_pos p
  omega

theorem map_range_decomp {α : Type} (f : Nat → α) (n : Nat) (b1 b2 : List α) (y : α)
    (h : (List.range n).map f = b1 ++ y :: b2) :
    b1.length < n ∧ y = f b1.length ∧ b1 = (List.range b1.length).map f := by
  have hlen : n = b1.length + (b2.length + 1) := by
    have := congrArg List.length h
    simpa using this
  have h1 : b1.length < n := by omega
  refine ⟨h1, ?_, ?_⟩
  · have hidx : b1.length < ((List.range n).map f).length := by simpa using h1
    have hy := List.getElem_of_eq h hidx
    rw [List.getElem_append_right (Nat.le_refl _)] at hy
    simp only [Nat.sub_self, List.getElem_cons_zero] at hy
    rw [List.getElem_map, List.getElem_range] at hy
    exact hy.symm
  · have hb1 : b1 = ((List.range n).map f).take b1.length := by
      rw [h]
      exact (List.take_left b1 (y :: b2)).symm
    nth_rewrite 1 [hb1]
    rw [← List.map_take, List.take_range, Nat.min_eq_left (Nat.le_of_lt h1)]

theorem mem_allPrefixStream {q : String} {ps : List String} :
    q ∈ allPrefixStream ps ↔ ∃ p, p ∈ ps ∧ q ∈ prefixesOf p := by
  induction ps with
  | nil => simp [allPrefixStream]
  | cons p ps ih =>
    rw [allPrefixStream, List.mem_append, ih]
    constructor
    · rintro (h | ⟨p', hp', hq⟩)
      · exact ⟨p, List.mem_cons_self p ps, h⟩
      · exact ⟨p', List.mem_cons_of_mem p hp', hq⟩
    · rintro ⟨p', hp', hq⟩
      rcases List.mem_cons.mp hp' with rfl | hp'
      · exact Or.inl hq
      · exact Or.inr ⟨p', hp', hq⟩

theorem stream_decomp (ps : List String) (l1 l2 : List String) (y : String)
    (h : allPrefixStream ps = l1 ++ y :: l2) :
    ∃ ps1 p ps2 b1 b2, ps = ps1 ++ p :: ps2 ∧ prefixesOf p = b1 ++ y :: b2 ∧
      l1 = allPrefixStream ps1 ++ b1 := by
  induction ps generalizing l1 l2 with
  | nil =>
    rw [allPrefixStream] at h
    exact absurd h.symm (List.append_ne_nil_of_right_ne_nil l1 (List.cons_ne_nil y l2))
  | cons p ps ih =>
    rw [allPrefixStream] at h
    rcases List.append_eq_append_iff.mp h with ⟨a', ha1, ha2⟩ | ⟨c', hc1, hc2⟩
    · -- the decomposition point lies beyond the first block
      rcases ih a' l2 ha2 with ⟨ps1, p', ps2, b1, b2, hps, hpre, hl1⟩
      refine ⟨p :: ps1, p', ps2, b1, b2, by simp [hps], hpre, ?_⟩
      rw [ha1, hl1, allPrefixStream, List.append_assoc]
    · cases c' with
      | nil =>
        -- the first block is exactly l1 and y starts the remaining stream
        rcases ih [] l2 (by simpa using hc2.symm) with ⟨ps1, p', ps2, b1, b2, hps, hpre, hl1⟩
        have hb : allPrefixStream ps1 = [] ∧ b1 = [] := List.append_eq_nil.mp hl1.symm
        refine ⟨p :: ps1, p', ps2, b1, b2, by simp [hps], hpre, ?_⟩
        rw [allPrefixStream, hb.1, hb.2, List.append_nil, List.append_nil]
        simpa using hc1.symm
      | cons z c'' =>
        -- y occurs inside the first block
        rw [List.cons_append] at hc2
        injection hc2 with hy hl2
        refine ⟨[], p, ps, l1, c'', by simp, ?_, by simp [allPrefixStream]⟩
        rw [hc1, hy]

theorem mem_usp_aux {x : String} (l seen : List String) :
    x ∈ usp_aux l seen ↔ x ∈ l ∧ x ∉ seen := by
  induction l generalizing seen with
  | nil => simp [usp_aux]
  | cons q rest ih =>
    by_cases hq : q ∈ seen
    · rw [usp_aux, if_pos hq, ih]
      constructor
      · rintro ⟨h1, h2⟩
        exact ⟨List.mem_cons_of_mem _ h1, h2⟩
      · rintro ⟨h1, h2⟩
        rcases List.mem_cons.mp h1 with rfl | h1
        · exact absurd hq h2
        · exact ⟨h1, h2⟩
    · rw [usp_aux, if_neg hq]
      constructor
      · intro hx
        rcases List.mem_cons.mp hx with rfl | hx
        · exact ⟨List.mem_cons_self x rest, hq⟩
        · rcases (ih _).mp hx with ⟨h1, h2⟩
          exact ⟨List.mem_cons_of_mem _ h1, fun hs => h2 (List.mem_cons_of_mem _ hs)⟩
      · rintro ⟨h1, h2⟩
        rcases List.mem_cons.mp h1 with rfl | h1
        · exact List.mem_cons_self x _
        · by_cases hxq : x = q
          · subst hxq
            exact List.mem_cons_self x _
          · refine List.mem_cons_of_mem _ ((ih _).mpr ⟨h1, ?_⟩)
            intro hs
            rcases List.mem_cons.mp hs with e | e
            · exact hxq e
            · exact h2 e

theorem nodup_usp_aux (l seen : List String) : (usp_aux l seen).Nodup := by
  induction l generalizing seen with
  | nil => simp [usp_aux]
  | cons q rest ih =>
    by_cases hq : q ∈ seen
    · rw [usp_aux, if_pos hq]
      exact ih _
    · rw [usp_aux, if_neg hq]
      refine List.nodup_cons.mpr ⟨fun hmem => ?_, ih _⟩
      exact ((mem_usp_aux _ _).mp hmem).2 (List.mem_cons_self q seen)

theorem usp_aux_lt (l seen : List String) (x y : String) (hxy : x ≠ y)
    (hy : y ∈ usp_aux l seen) (hx : x ∉ seen)
    (hocc : ∀ l1 l2, l = l1 ++ y :: l2 → x ∈ l1) :
    (usp_aux l seen).indexOf x < (usp_aux l seen).indexOf y := by
  induction l generalizing seen with
  | nil => simp [usp_aux] at hy
  | cons a rest ih =>
    by_cases ha : a ∈ seen
    · rw [usp_aux, if_pos ha] at hy ⊢
      apply ih _ hy hx
      intro l1 l2 hdecomp
      have hxa : x ≠ a := fun e => hx (e ▸ ha)
      have hmem := hocc (a :: l1) l2 (by rw [hdecomp]; rfl)
      rcases List.mem_cons.mp hmem with e | hmem
      · exact absurd e hxa
      · exact hmem
    · rw [usp_aux, if_neg ha] at hy ⊢
      by_cases hax : a = x
      · subst hax
        rw [List.indexOf_cons_self, List.indexOf_cons_ne _ hxy]
        exact Nat.succ_pos _
      · have hya : y ≠ a := by
          rintro rfl
          exact absurd (hocc [] rest rfl) (List.not_mem_nil x)
        have hy' : y ∈ usp_aux rest (a :: seen) := by
          rcases List.mem_cons.mp hy with e | h
          · exact absurd e hya
          · exact h
        have hx' : x ∉ a :: seen := by
          intro hmem
          rcases List.mem_cons.mp hmem with e | e
          · exact hax e.symm
          · exact hx e
        have hocc' : ∀ l1 l2, rest = l1 ++ y :: l2 → x ∈ l1 := by
          intro l1 l2 hd
          have hmem := hocc (a :: l1) l2 (by rw [hd]; rfl)
          rcases List.mem_cons.mp hmem with e | hmem
          · exact absurd e.symm hax
          · exact hmem
        have hlt := ih _ hy' hx' hocc'
        rw [List.indexOf_cons_ne _ (fun e => hax e),
          List.indexOf_cons_ne _ (fun e => hya e.symm)]
        exact Nat.succ_lt_succ hlt

theorem indexOf_le_of_getElem {α : Type} [DecidableEq α] {l : List α} {i : Nat} {a : α}
    (h : i < l.length) (he : l[i] = a) : l.indexOf a ≤ i := by
  induction l generalizing i with
  | nil => simp at h
  | cons b l ih =>
    cases i with
    | zero =>
      have : b = a := by simpa using he
      rw [← this, List.indexOf_cons_self]
    | succ i =>
      by_cases hab : b = a
      · rw [← hab, List.indexOf_cons_self]
        exact Nat.zero_le _
      · rw [List.indexOf_cons_ne _ hab]
        exact Nat.succ_le_succ (ih (by simpa using h) (by simpa using he))

/-! ### Claim theorems -/

/-- C1: for every sequence of dotted path strings, `unique_split_paths`
returns every prefix of every input path exactly once (membership
characterisation plus count one), with each parent prefix emitted before any
of its child prefixes (index ordering along dotted-prefix containment), and
with the first-seen order of distinct path roots preserved; in particular
`["a.b.c", "a.b.d"]` yields `["a", "a.b", "a.b.c", "a.b.d"]`. -/
theorem unique_split_paths_spec (paths : List String) :
    (∀ q, q ∈ unique_split_paths paths ↔ ∃ p, p ∈ paths ∧ q ∈ prefixesOf p)
    ∧ (∀ p, p ∈ paths → ∀ q, q ∈ prefixesOf p → (unique_split_paths paths).count q = 1)
    ∧ (∀ q q', q' ∈ unique_split_paths paths → splitPath q <+: splitPath q' → q ≠ q' →
        (unique_split_paths paths).indexOf q < (unique_split_paths paths).indexOf q')
    ∧ (∀ p1 p2, p1 ∈ paths → p2 ∈ paths →
        (paths.map rootOf).indexOf (rootOf p1) < (paths.map rootOf).indexOf (rootOf p2) →
        (unique_split_paths paths).indexOf (rootOf p1) <
          (unique_split_paths paths).indexOf (rootOf p2))
    ∧ unique_split_paths ["a.b.c", "a.b.d"] = ["a", "a.b", "a.b.c", "a.b.d"] := by
  have hmem : ∀ q, q ∈ unique_split_paths paths ↔ ∃ p, p ∈ paths ∧ q ∈ prefixesOf p := by
    intro q
    rw [unique_split_paths, mem_usp_aux, mem_allPrefixStream]
    simp
  refine ⟨hmem, ?_, ?_, ?_, by decide⟩
  · intro p hp q hq
    exact List.count_eq_one_of_mem (nodup_usp_aux _ _) ((hmem q).mpr ⟨p, hp, hq⟩)
  · intro q q' hq' hpre hne
    rw [unique_split_paths] at hq' ⊢
    apply usp_aux_lt _ _ _ _ hne hq' (List.not_mem_nil q)
    intro l1 l2 hd
    rcases stream_decomp paths l1 l2 q' hd with ⟨ps1, p, ps2, hps_all⟩
    rcases hps_all with ⟨b1, b2, hps, hpre_p, hl1⟩
    rcases map_range_decomp _ _ _ _ _ hpre_p with ⟨hjlt, hyv, hb1⟩
    have hsq' : splitPath q' = (splitPath p).take (b1.length + 1) := by
      rw [hyv]
      exact splitPath_joinPath_take hjlt
    rcases hpre with ⟨t, ht⟩
    have hlen_take : ((splitPath p).take (b1.length + 1)).length = b1.length + 1 := by
      rw [List.length_take]
      omega
    have hkle : (splitPath q).length + t.length = b1.length + 1 := by
      have hlen := congrArg List.length ht
      rw [List.length_append, hsq', hlen_take] at hlen
      exact hlen
    have hk1 : 0 < (splitPath q).length := length_splitPath_pos q
    have hsq : splitPath q = (splitPath p).take (splitPath q).length := by
      have h1 : splitPath q = (splitPath q').take (splitPath q).length := by
        rw [← ht, List.take_left]
      rw [hsq', List.take_take, Nat.min_eq_left (by omega)] at h1
      exact h1
    have hklt : (splitPath q).length < b1.length + 1 := by
      rcases Nat.lt_or_ge (splitPath q).length (b1.length + 1) with hlt | hge
      · exact hlt
      · exfalso
        have hteq : t = [] := List.length_eq_zero.mp (by omega)
        have heq : splitPath q = splitPath q' := by
          rw [← ht, hteq, List.append_nil]
        exact hne (by rw [← joinPath_splitPath q, ← joinPath_splitPath q', heq])
    rw [hl1]
    refine List.mem_append.mpr (Or.inr ?_)
    rw [hb1]
    refine List.mem_map.mpr ⟨(splitPath q).length - 1, List.mem_range.mpr (by omega), ?_⟩
    rw [show (splitPath q).length - 1 + 1 = (splitPath q).length from by omega, ← hsq,
      joinPath_splitPath]
  · intro p1 p2 hp1 hp2 hidx
    have hne : rootOf p1 ≠ rootOf p2 := by
      intro e
      rw [e] at hidx
      exact absurd hidx (lt_irrefl _)
    rw [unique_split_paths]
    refine usp_aux_lt _ _ _ _ hne ?_ (List.not_mem_nil _) ?_
    · exact (mem_usp_aux _ _).mpr
        ⟨mem_allPrefixStream.mpr ⟨p2, hp2, rootOf_mem_prefixesOf p2⟩, List.not_mem_nil _⟩
    · intro l1 l2 hd
      rcases stream_decomp paths l1 l2 (rootOf p2) hd with ⟨ps1, p, ps2, hps_all⟩
      rcases hps_all with ⟨b1, b2, hps, hpre_p, hl1⟩
      rcases map_range_decomp _ _ _ _ _ hpre_p with ⟨hjlt, hyv, hb1⟩
      have hsq' : splitPath (rootOf p2) = (splitPath p).take (b1.length + 1) := by
        rw [hyv]
        exact splitPath_joinPath_take hjlt
      have hj0 : b1.length = 0 := by
        have hlen := congrArg List.length hsq'
        rw [length_splitPath_rootOf, List.length_take] at hlen
        omega
      have hroot : rootOf p = rootOf p2 := by
        show joinPath ((splitPath p).take 1) = rootOf p2
        rw [hyv, hj0]
      have hlenps : ps1.length < paths.length := by
        rw [hps, List.length_append, List.length_cons]
        omega
      have hlenroots : ps1.length < (paths.map rootOf).length := by simpa using hlenps
      have hpaths_get : paths[ps1.length] = p := by
        rw [List.getElem_of_eq hps hlenps, List.getElem_append_right (Nat.le_refl _)]
        simp
      have hgetroots : (paths.map rootOf)[ps1.length] = rootOf p2 := by
        rw [List.getElem_map, hpaths_get, hroot]
      have hle : (paths.map rootOf).indexOf (rootOf p2) ≤ ps1.length :=
        indexOf_le_of_getElem hlenroots hgetroots
      have hmem1 : rootOf p1 ∈ paths.map rootOf := List.mem_map_of_mem rootOf hp1
      have hi1lt : (paths.map rootOf).indexOf (rootOf p1) < (paths.map rootOf).length :=
        List.indexOf_lt_length.mpr hmem1
      have hi1get :
          (paths.map rootOf)[(paths.map rootOf).indexOf (rootOf p1)] = rootOf p1 :=
        List.getElem_indexOf hi1lt
      have hi1ps1 : (paths.map rootOf).indexOf (rootOf p1) < ps1.length :=
        lt_of_lt_of_le hidx hle
      have hi1paths : (paths.map rootOf).indexOf (rootOf p1) < paths.length := by
        simpa using hi1lt
      have hpel : paths[(paths.map rootOf).indexOf (rootOf p1)] =
          ps1[(paths.map rootOf).indexOf (rootOf p1)] := by
        rw [List.getElem_of_eq hps hi1paths, List.getElem_append_left hi1ps1]
      have hrootel :
          rootOf (ps1[(paths.map rootOf).indexOf (rootOf p1)]) = rootOf p1 := by
        rw [← hpel]
        have hmap := hi1get
        rw [List.getElem_map] at hmap
        exact hmap
      rw [hl1]
      refine List.mem_append.mpr (Or.inl ?_)
      obtain ⟨x, hx⟩ :
          ∃ x, ps1[(paths.map rootOf).indexOf (rootOf p1)] = x := ⟨_, rfl⟩
      rw [hx] at hrootel
      refine mem_allPrefixStream.mpr ⟨x, ?_, ?_⟩
      · rw [← hx]
        exact List.getElem_mem _
      · rw [← hrootel]
        exact rootOf_mem_prefixesOf x

/-- Witness for C1 at the concrete input of the unit test: the full output,
a count-one instance for the shared prefix `a.b`, and the parent `a`
preceding the child `a.b.d`. -/
theorem unique_split_paths_spec_witness :
    unique_split_paths ["a.b.c", "a.b.d"] = ["a", "a.b", "a.b.c", "a.b.d"]
    ∧ (unique_split_paths ["a.b.c", "a.b.d"]).count "a.b" = 1
    ∧ (unique_split_paths ["a.b.c", "a.b.d"]).indexOf "a" <
        (unique_split_paths ["a.b.c", "a.b.d"]).indexOf "a.b.d" := by
  refine ⟨(unique_split_paths_spec ["a.b.c", "a.b.d"]).2.2.2.2, ?_, ?_⟩
  · exact (unique_split_paths_spec ["a.b.c", "a.b.d"]).2.1 "a.b.c" (by decide) "a.b" (by decide)
  · exact (unique_split_paths_spec ["a.b.c", "a.b.d"]).2.2.1 "a" "a.b.d" (by decide)
      ⟨["b", "d"], by decide⟩ (by decide)

theorem walk_aux_ends_at_column (g : SchemaGraph) (t : Table) (segs : List String)
    (h : EndsAtColumn g t segs) : walk_aux g t segs = some (none, none) := by
  induction h with
  | last t seg h1 h2 => simp [walk_aux, h1, h2]
  | hop t tgt seg r rest h1 h2 h3 _h4 ih =>
    rcases List.exists_cons_of_ne_nil h3 with ⟨z, zs, rfl⟩
    cases r with
    | many_to_one target fkcol =>
      have h2' : g.find? target = some tgt := h2
      rw [walk_aux]
      simp only [h1, h2', ih]
    | one_to_many target remotecol =>
      have h2' : g.find? target = some tgt := h2
      rw [walk_aux]
      simp only [h1, h2', ih]

/-- C4: for every path that resolves through relations and whose final
segment names a literal column of the table reached rather than a relation,
`walk_path` returns `(none, none)`: no relational `PathPart` and no terminal
table. -/
theorem walk_path_column_returns_none (g : SchemaGraph) (t : Table) (path : String)
    (h : EndsAtColumn g t (splitPath path)) :
    walk_path g t path = some (none, none) :=
  walk_aux_ends_at_column g t (splitPath path) h

/-- Witness for C4 at the unit tests' inputs: `"c.id"` from `tableB`
(many-to-one then column) and `"bs.id"` from `tableC` (one-to-many then
column) both resolve to `(none, none)`. -/
theorem walk_path_column_returns_none_witness :
    walk_path testGraph tableB "c.id" = some (none, none)
    ∧ walk_path testGraph tableC "bs.id" = some (none, none) := by
  constructor
  · apply walk_path_column_returns_none
    rw [show splitPath "c.id" = ["c", "id"] from by decide]
    exact EndsAtColumn.hop tableB tableC "c" (.many_to_one "table_c" "c") ["id"]
      (by decide) (by decide) (by decide)
      (EndsAtColumn.last tableC "id" (by decide) (by decide))
  · apply walk_path_column_returns_none
    rw [show splitPath "bs.id" = ["bs", "id"] from by decide]
    exact EndsAtColumn.hop tableC tableB "bs" (.one_to_many "table_b" "c") ["id"]
      (by decide) (by decide) (by decide)
      (EndsAtColumn.last tableB "id" (by decide) (by decide))

/-- C5: `walk_path` on root table `tableB` and path `"c"` (a many-to-one
relation to `tableC`) returns a `ManyToOne` part wrapping a `Column` part
whose rendering is the single un-nested query
`SELECT table_b.id FROM table_b WHERE table_b.c IN ({new_or_old}.id)`, with
terminal table `table_c`. -/
theorem walk_path_many_to_one_spec :
    walk_path testGraph tableB "c" =
      some (some (PathPart.many_to_one "table_b" "id" "c" (PathPart.column "id")),
        some "table_c")
    ∧ (PathPart.many_to_one "table_b" "id" "c" (PathPart.column "id")).render =
      "SELECT table_b.id FROM table_b WHERE table_b.c IN (\x7bnew_or_old\x7d.id)" :=
  ⟨by decide, by decide⟩

/-- C2: `walk_path` on root table `tableC` and path `"bs"` (a one-to-many
relation to `tableB`) returns a `OneToMany` part wrapping a `Column` part
whose rendering is the containment query
`SELECT table_c.id FROM table_c WHERE table_c.id IN ({new_or_old}.c)`
(selecting the foreign-key column of the changed row standing for the
placeholder token), with terminal table `table_b`. -/
theorem walk_path_one_to_many_spec :
    walk_path testGraph tableC "bs" =
      some (some (PathPart.one_to_many "table_c" "id" (PathPart.column "c")), some "table_b")
    ∧ (PathPart.one_to_many "table_c" "id" (PathPart.column "c")).render =
      "SELECT table_c.id FROM table_c WHERE table_c.id IN (\x7bnew_or_old\x7d.c)" :=
  ⟨by decide, by decide⟩

/-- C3: the trigger name is a deterministic function of the entity-type
prefix, the operation tag and the supplied numeric disambiguating index
(it equals `search_<pfx>_<op>_<index>`); in particular two constructions
agreeing on those three inputs produce byte-identical names regardless of
table, path or selection. -/
theorem triggername_spec (c c' : GenClass) (pfx tbl tbl' path path' sel sel' it it' : String)
    (i : Nat) :
    (c.construct pfx tbl path sel it i).triggername =
      "search_" ++ pfx ++ "_" ++ c.op ++ "_" ++ Nat.repr i
    ∧ (c.op = c'.op →
        (c.construct pfx tbl path sel it i).triggername =
          (c'.construct pfx tbl' path' sel' it' i).triggername) := by
  refine ⟨rfl, fun h => ?_⟩
  simp [GenClass.construct, TriggerGenerator.triggername, h]

/-- Witness for C3: the delete variant at concrete inputs, and stability of
the name across two constructions differing in table, path and selection. -/
theorem triggername_spec_witness :
    (DeleteTriggerGenerator.construct "a" "t1" "p1" "s1" "x1" 3).triggername =
      "search_a_delete_3"
    ∧ (DeleteTriggerGenerator.construct "a" "t1" "p1" "s1" "x1" 3).triggername =
      (DeleteTriggerGenerator.construct "a" "t2" "p2" "s2" "x2" 3).triggername := by
  constructor
  · rw [(triggername_spec DeleteTriggerGenerator DeleteTriggerGenerator
      "a" "t1" "t2" "p1" "p2" "s1" "s2" "x1" "x2" 3).1]
    decide
  · exact (triggername_spec DeleteTriggerGenerator DeleteTriggerGenerator
      "a" "t1" "t2" "p1" "p2" "s1" "s2" "x1" "x2" 3).2 rfl

/-- C6: the fixed attributes of the four generator variants — delete uses
`BEFORE`/`OLD`/routing key `update`; insert uses `AFTER`/`NEW`/`index`;
update uses `AFTER`/`NEW`/`update`; and the gid-delete variant keeps the
delete attributes but selects the row's own global-id column
(`SELECT OLD.gid`) instead of the supplied joined subquery. -/
theorem generator_variant_attributes :
    (DeleteTriggerGenerator.op = "delete" ∧ DeleteTriggerGenerator.id_replacement = "OLD"
      ∧ DeleteTriggerGenerator.beforeafter = "BEFORE"
      ∧ DeleteTriggerGenerator.routing_key = some "update")
    ∧ (InsertTriggerGenerator.op = "insert" ∧ InsertTriggerGenerator.id_replacement = "NEW"
      ∧ InsertTriggerGenerator.beforeafter = "AFTER"
      ∧ InsertTriggerGenerator.routing_key = some "index")
    ∧ (UpdateTriggerGenerator.op = "update" ∧ UpdateTriggerGenerator.id_replacement = "NEW"
      ∧ UpdateTriggerGenerator.beforeafter = "AFTER"
      ∧ UpdateTriggerGenerator.routing_key = some "update")
    ∧ (∀ pfx tbl path sel it i,
        (GIDDeleteTriggerGenerator pfx tbl path sel it i).selection = "SELECT OLD.gid"
        ∧ (GIDDeleteTriggerGenerator pfx tbl path sel it i).op = "delete"
        ∧ (GIDDeleteTriggerGenerator pfx tbl path sel it i).id_replacement = "OLD"
        ∧ (GIDDeleteTriggerGenerator pfx tbl path sel it i).beforeafter = "BEFORE") := by
  refine ⟨⟨rfl, rfl, rfl, rfl⟩, ⟨rfl, rfl, rfl, rfl⟩, ⟨rfl, rfl, rfl, rfl⟩, ?_⟩
  intro pfx tbl path sel it i
  exact ⟨rfl, rfl, rfl, rfl⟩

/-- C7: for every entity-type prefix and root table, `write_direct_triggers`
writes exactly 3 trigger definitions and exactly 3 function definitions,
which are precisely those of the gid-delete, insert and update variants (in
that order) on the root table with path label `direct` — the plain delete
variant is never used. -/
theorem write_direct_triggers_spec (pfx : String) (model : Table) :
    (write_direct_triggers pfx model).1.length = 3
    ∧ (write_direct_triggers pfx model).2.length = 3
    ∧ (write_direct_triggers pfx model).1 =
      [(GIDDeleteTriggerGenerator pfx model.name "direct" (direct_select model.name)
          model.name 0).trigger,
       (InsertTriggerGenerator.construct pfx model.name "direct" (direct_select model.name)
          model.name 0).trigger,
       (UpdateTriggerGenerator.construct pfx model.name "direct" (direct_select model.name)
          model.name 0).trigger]
    ∧ (write_direct_triggers pfx model).2 =
      [(GIDDeleteTriggerGenerator pfx model.name "direct" (direct_select model.name)
          model.name 0).function,
       (InsertTriggerGenerator.construct pfx model.name "direct" (direct_select model.name)
          model.name 0).function,
       (UpdateTriggerGenerator.construct pfx model.name "direct" (direct_select model.name)
          model.name 0).function] :=
  ⟨rfl, rfl, rfl, rfl⟩

/-- C8: for every generator instance, the rendered function body wraps the
(row-token-substituted) selection inside
`SELECT string_agg(tmp.id::text, ' ') INTO ids FROM (...) AS tmp`, issues a
single `PERFORM amqp.publish` call whose payload is the target index table
concatenated with the aggregated ids, and ends with `RETURN NULL` followed
by a `COMMENT` naming the path. -/
theorem function_body_spec (c : GenClass) (pfx tbl path sel it : String) (i : Nat) :
    (c.construct pfx tbl path sel it i).function =
      "\nCREATE OR REPLACE FUNCTION "
        ++ ("search_" ++ pfx ++ "_" ++ c.op ++ "_" ++ Nat.repr i)
        ++ "() RETURNS trigger\n    AS $$\nDECLARE\n    ids TEXT;\nBEGIN\n    SELECT string_agg(tmp.id::text, \x27 \x27) INTO ids FROM ("
        ++ replaceToken sel c.id_replacement
        ++ ") AS tmp;\n    PERFORM amqp.publish(1, \x27search\x27, \x27"
        ++ pyStr c.routing_key
        ++ "\x27, \x27"
        ++ it
        ++ " \x27 || ids);\n    RETURN NULL;\nEND;\n$$ LANGUAGE plpgsql;\nCOMMENT ON FUNCTION "
        ++ ("search_" ++ pfx ++ "_" ++ c.op ++ "_" ++ Nat.repr i)
        ++ "() IS \x27The path for this function is "
        ++ path
        ++ "\x27;\n"
    ∧ ∃ pre,
        (c.construct pfx tbl path sel it i).function =
          pre ++ ("    RETURN NULL;\nEND;\n$$ LANGUAGE plpgsql;\nCOMMENT ON FUNCTION "
            ++ ("search_" ++ pfx ++ "_" ++ c.op ++ "_" ++ Nat.repr i)
            ++ "() IS \x27The path for this function is " ++ path ++ "\x27;\n") := by
  constructor
  · rfl
  · refine ⟨"\nCREATE OR REPLACE FUNCTION "
      ++ ("search_" ++ pfx ++ "_" ++ c.op ++ "_" ++ Nat.repr i)
      ++ "() RETURNS trigger\n    AS $$\nDECLARE\n    ids TEXT;\nBEGIN\n    SELECT string_agg(tmp.id::text, \x27 \x27) INTO ids FROM ("
      ++ replaceToken sel c.id_replacement
      ++ ") AS tmp;\n    PERFORM amqp.publish(1, \x27search\x27, \x27"
      ++ pyStr c.routing_key
      ++ "\x27, \x27"
      ++ it
      ++ " \x27 || ids);\n", ?_⟩
    have hsplit :
        (" \x27 || ids);\n    RETURN NULL;\nEND;\n$$ LANGUAGE plpgsql;\nCOMMENT ON FUNCTION "
          : String) =
          " \x27 || ids);\n"
            ++ "    RETURN NULL;\nEND;\n$$ LANGUAGE plpgsql;\nCOMMENT ON FUNCTION " := by
      decide
    show TriggerGenerator.function _ = _
    rw [TriggerGenerator.function, hsplit]
    simp only [GenClass.construct, TriggerGenerator.triggername, String.append_assoc]

/-- C9: `partialdate_to_string` includes the month only when the year is
present and nonzero and the day only when year and month are both present
and nonzero: a missing or zero year yields the empty string, a missing or
zero month silently drops the day (the value coincides with the
month-and-day-free date), a missing or zero day is itself dropped, and when
all three are present and nonzero the result is the fully formatted
`%04d-%02d-%02d` date. -/
theorem partialdate_to_string_spec (y m d : Option Int) :
    ((y = none ∨ y = some 0) → partialdate_to_string ⟨y, m, d⟩ = "")
    ∧ ((m = none ∨ m = some 0) →
        partialdate_to_string ⟨y, m, d⟩ = partialdate_to_string ⟨y, none, none⟩)
    ∧ ((d = none ∨ d = some 0) →
        partialdate_to_string ⟨y, m, d⟩ = partialdate_to_string ⟨y, m, none⟩)
    ∧ (∀ yv mv dv, y = some yv → yv ≠ 0 → m = some mv → mv ≠ 0 → d = some dv → dv ≠ 0 →
        partialdate_to_string ⟨y, m, d⟩ =
          fmt0d 4 yv ++ "-" ++ fmt0d 2 mv ++ "-" ++ fmt0d 2 dv) := by
  refine ⟨?_, ?_, ?_, ?_⟩
  · rintro (rfl | rfl) <;> simp [partialdate_to_string]
  · rintro (rfl | rfl) <;> rcases y with _ | yv <;> simp [partialdate_to_string]
  · rintro (rfl | rfl) <;> rcases y with _ | yv <;> rcases m with _ | mv <;>
      simp [partialdate_to_string]
  · rintro yv mv dv rfl hy rfl hm rfl hd
    simp [partialdate_to_string, hy, hm, hd, String.append_assoc]

/-- Witness for C9: a full date formats as `1990-05-03`, and a date with a
month and day but no year formats as the empty string. -/
theorem partialdate_to_string_spec_witness :
    partialdate_to_string ⟨some 1990, some 5, some 3⟩ = "1990-05-03"
    ∧ partialdate_to_string ⟨none, some 5, some 3⟩ = "" := by
  constructor
  · rw [(partialdate_to_string_spec (some 1990) (some 5) (some 3)).2.2.2 1990 5 3 rfl
      (by decide) rfl (by decide) rfl (by decide)]
    decide
  · exact (partialdate_to_string_spec none (some 5) (some 3)).1 (Or.inl rfl)

/-- C10: the artist returned by `convert_artist` always has its gender
unset — the gender branch at convert.py lines 193-194 inspects the freshly
constructed output artist's gender (still `None`) instead of the input's —
and consequently the outputs for two inputs differing only in their gender
attribute are identical. -/
theorem convert_artist_gender_spec (obj : PyArtist) (g : Option Named) :
    (convert_artist obj).gender = none
    ∧ convert_artist { obj with gender := g } = convert_artist obj := by
  constructor
  · rcases obj with ⟨comment, gid, name, sort_name, gender, type, begin_area, area, end_area,
      begin_date, end_date, ended, aliases, ipis, tags⟩
    cases comment <;> cases type <;> cases begin_area <;> cases end_area <;>
      cases begin_date <;> cases end_date <;> cases ended <;>
      cases aliases <;> cases ipis <;> cases tags <;>
      rcases area with _ | ⟨agid, aname, _ | ⟨c0, crest⟩⟩ <;> rfl
  · rfl

end Sir
